import Mathlib

/-!
Verification of the `game_lobby` ink! contract (`src/lib.rs`).

The contract is a single state machine `GameLobby` with operations
`new`, `join`, `leave`, `get_players`, `get_state`.  We embed it
shallowly: the caller identity (`AccountId`) becomes `Nat`, the Rust
`Vec<AccountId>` becomes `List AccountId`, and each `&mut self` method
becomes a function from the lobby state to the pair of the post-state
and the returned `Result` (so that the state returned on an error path
is visible in the embedding, mirroring the early `return`s in the
source).
-/

namespace GameLobbySpec

/-- Opaque, comparable caller identifier (ink! `AccountId`). -/
abbrev AccountId := Nat

/-- Mirrors `enum LobbyState { Registering, InPlay, Finished }`. -/
inductive LobbyState where
  | Registering
  | InPlay
  | Finished
deriving DecidableEq, Repr

/-- Mirrors `enum Error { LobbyFull, LobbyNotOpen, PlayerAlreadyJoined, PlayerNotFound, NotOwner }`. -/
inductive Error where
  | LobbyFull
  | LobbyNotOpen
  | PlayerAlreadyJoined
  | PlayerNotFound
  | NotOwner
deriving DecidableEq, Repr

/-- Mirrors the `GameLobby` storage struct.  `family_id : u32` and
`max_players : u8` are modelled as `Nat`: no arithmetic is ever
performed on them, so the machine width is irrelevant to behaviour. -/
structure GameLobby where
  owner : AccountId
  family_id : Nat
  max_players : Nat
  players : List AccountId
  state : LobbyState
deriving DecidableEq, Repr

/-- Mirrors `Iterator::position`: index of the first element satisfying
`p`, or `none` (used by `leave` via `self.players.iter().position(..)`). -/
def position (p : α → Bool) : List α → Option Nat
  | [] => none
  | x :: xs => if p x then some 0 else (position p xs).map (· + 1)

/-- Mirrors `Vec::swap_remove(i)`: remove the element at index `i` by
moving the last element into its place and shrinking by one. -/
def swapRemove (xs : List α) (i : Nat) : List α :=
  if h : xs.length = 0 then xs
  else (xs.set i (xs.getLast (fun e => h (congrArg List.length e)))).dropLast

/-- Mirrors the constructor `new(family_id, max_players)`; `caller` is
the invoking account resolved by the host (`Self::env().caller()`). -/
def GameLobby.new (caller : AccountId) (family_id : Nat) (max_players : Nat) : GameLobby :=
  { owner := caller
    family_id := family_id
    max_players := max_players
    players := []
    state := LobbyState.Registering }

/-- Mirrors `join(&mut self) -> Result<(), Error>`.  Returns the
post-state together with the result; each early `return Err(..)` in the
source leaves `self` untouched, so the error branches return `l`. -/
def GameLobby.join (l : GameLobby) (caller : AccountId) : GameLobby × Except Error Unit :=
  if caller ∈ l.players then
    (l, Except.error Error.PlayerAlreadyJoined)
  else if l.players.length ≥ l.max_players then
    (l, Except.error Error.LobbyFull)
  else if l.state ≠ LobbyState.Registering then
    (l, Except.error Error.LobbyNotOpen)
  else
    let players' := l.players ++ [caller]
    let state' := if players'.length = l.max_players then LobbyState.InPlay else l.state
    ({ l with players := players', state := state' }, Except.ok ())

/-- Mirrors `leave(&mut self) -> Result<(), Error>`. -/
def GameLobby.leave (l : GameLobby) (caller : AccountId) : GameLobby × Except Error Unit :=
  if l.state ≠ LobbyState.Registering then
    (l, Except.error Error.LobbyNotOpen)
  else
    match position (· == caller) l.players with
    | some index => ({ l with players := swapRemove l.players index }, Except.ok ())
    | none => (l, Except.error Error.PlayerNotFound)

/-- Mirrors `get_players(&self) -> Vec<AccountId>`. -/
def GameLobby.get_players (l : GameLobby) : List AccountId :=
  l.players

/-- Mirrors `get_state(&self) -> LobbyState`. -/
def GameLobby.get_state (l : GameLobby) : LobbyState :=
  l.state

/-- One call of a mutating entry point (`join` or `leave`) by some
caller; the post-state is taken whether the call succeeded or failed. -/
inductive Step : GameLobby → GameLobby → Prop where
  | join (l : GameLobby) (c : AccountId) : Step l (l.join c).1
  | leave (l : GameLobby) (c : AccountId) : Step l (l.leave c).1

/-- States reachable from some `new(..)` by any sequence of `join` and
`leave` calls (the read-only `get_players`/`get_state` do not mutate). -/
inductive Reachable : GameLobby → Prop where
  | created (caller family_id max_players : Nat) :
      Reachable (GameLobby.new caller family_id max_players)
  | step {l l' : GameLobby} : Reachable l → Step l l' → Reachable l'

/-! Lemmas about `position`. -/

/-- A hit reported by `position` is a valid index. -/
theorem position_lt_length {p : α → Bool} :
    ∀ {xs : List α} {i : Nat}, position p xs = some i → i < xs.length
  | [], i, h => by rw [position] at h; exact Option.noConfusion h
  | x :: xs, i, h => by
    rw [position] at h
    by_cases hp : p x
    · rw [if_pos hp] at h
      cases h
      simp
    · rw [if_neg hp] at h
      cases e : position p xs with
      | none => rw [e] at h; simp at h
      | some j =>
        rw [e] at h
        simp at h
        have := position_lt_length e
        simp only [List.length_cons]
        omega

/-- On a duplicate-free list, `position (· == c)` returns exactly the
index at which `c` sits. -/
theorem position_eq_some_of_getElem [BEq α] [LawfulBEq α] {c : α} {xs : List α}
    (hnd : xs.Nodup) : ∀ {i : Nat} (h : i < xs.length),
      xs[i] = c → position (· == c) xs = some i := by
  induction xs with
  | nil => intro i h; simp at h
  | cons x xs ih =>
    rw [List.nodup_cons] at hnd
    intro i h he
    cases i with
    | zero =>
      rw [List.getElem_cons_zero] at he
      rw [position, if_pos (by simp [he])]
    | succ i =>
      rw [List.getElem_cons_succ] at he
      have hi : i < xs.length := by simpa using h
      have hx : ¬(x == c) = true := by
        simp only [beq_iff_eq]
        intro e
        apply hnd.1
        rw [e, ← he]
        exact List.getElem_mem hi
      rw [position, if_neg hx, ih hnd.2 hi he]
      rfl

/-! Lemmas about `swapRemove`. -/

/-- Removing index `i` by swap-removal yields a permutation of removing
index `i` by ordinary (order-preserving) deletion. -/
theorem swapRemove_perm_eraseIdx (xs : List α) (i : Nat) (h : i < xs.length) :
    List.Perm (swapRemove xs i) (xs.eraseIdx i) := by
  have hne : xs ≠ [] := List.ne_nil_of_length_pos (Nat.lt_of_le_of_lt (Nat.zero_le _) h)
  have hne0 : ¬xs.length = 0 := by omega
  rw [swapRemove, dif_neg hne0, List.set_eq_take_cons_drop _ h, List.eraseIdx_eq_take_drop_succ]
  by_cases hb : xs.drop (i + 1) = []
  · rw [hb]
    have e1 : (xs.take i ++ [xs.getLast hne]).dropLast = xs.take i := List.dropLast_concat
    rw [e1, List.append_nil]
  · obtain ⟨d, z, hcz⟩ : ∃ d z, xs.drop (i + 1) = d ++ [z] :=
      ⟨_, _, (List.dropLast_append_getLast hb).symm⟩
    have hLz : xs.getLast hne = z := by
      have h1 : xs = (xs.take (i + 1) ++ d) ++ [z] := by
        rw [List.append_assoc, ← hcz, List.take_append_drop]
      rw [List.getLast_congr hne (by simp) h1]
      exact List.getLast_concat _
    rw [hLz, hcz]
    have e1 : xs.take i ++ z :: (d ++ [z]) = (xs.take i ++ z :: d) ++ [z] := by simp
    rw [e1, List.dropLast_concat]
    exact List.Perm.append_left _ (List.perm_append_singleton _ _).symm

/-- Swap-removal at a valid index shrinks the length by exactly one. -/
theorem length_swapRemove {xs : List α} {i : Nat} (h : i < xs.length) :
    (swapRemove xs i).length = xs.length - 1 := by
  rw [(swapRemove_perm_eraseIdx xs i h).length_eq, List.length_eraseIdx_of_lt h]

/-- Swap-removal preserves freedom from duplicates. -/
theorem nodup_swapRemove {xs : List α} {i : Nat} (h : i < xs.length) (hnd : xs.Nodup) :
    (swapRemove xs i).Nodup :=
  ((swapRemove_perm_eraseIdx xs i h).nodup_iff).2
    (List.Nodup.sublist (List.eraseIdx_sublist xs i) hnd)

/-- Membership after swap-removal coincides with membership after
ordinary deletion. -/
theorem mem_swapRemove_iff {xs : List α} {i : Nat} (h : i < xs.length) {b : α} :
    b ∈ swapRemove xs i ↔ b ∈ xs.eraseIdx i :=
  (swapRemove_perm_eraseIdx xs i h).mem_iff

/-- Deleting index `i` keeps every element that sits elsewhere. -/
theorem mem_eraseIdx_of_mem_of_ne {xs : List α} {i : Nat} (h : i < xs.length) {b : α}
    (hm : b ∈ xs) (hne : b ≠ xs[i]) : b ∈ xs.eraseIdx i := by
  rw [List.eraseIdx_eq_take_drop_succ]
  have hsplit : xs.take i ++ xs.drop i = xs := List.take_append_drop i xs
  rw [← hsplit, List.mem_append] at hm
  rcases hm with hm | hm
  · exact List.mem_append_left _ hm
  · rw [List.drop_eq_getElem_cons h] at hm
    rcases List.mem_cons.1 hm with e | hm
    · exact absurd e hne
    · exact List.mem_append_right _ hm

/-- On a duplicate-free list, deleting index `i` removes the element
that sat there. -/
theorem not_mem_eraseIdx_self {xs : List α} {i : Nat} (h : i < xs.length) (hnd : xs.Nodup) :
    xs[i] ∉ xs.eraseIdx i := by
  rw [List.eraseIdx_eq_take_drop_succ]
  intro hm
  have hx : xs.take i ++ xs[i] :: xs.drop (i + 1) = xs := by
    rw [← List.drop_eq_getElem_cons h, List.take_append_drop]
  rw [← hx, List.nodup_append] at hnd
  rcases hnd with ⟨_, hnd2, hdisj⟩
  rw [List.nodup_cons] at hnd2
  rcases List.mem_append.1 hm with hm | hm
  · exact hdisj hm (List.mem_cons_self _ _)
  · exact hnd2.1 hm

/-! Case analysis of the two mutating operations, read off the source's
check order. -/

/-- Exhaustive case analysis of `join`: exactly one of the three error
branches or the success branch applies, as dictated by the order of the
checks in the source. -/
theorem join_cases (l : GameLobby) (c : AccountId) :
    (c ∈ l.players ∧ l.join c = (l, Except.error Error.PlayerAlreadyJoined)) ∨
    (c ∉ l.players ∧ l.players.length ≥ l.max_players ∧
      l.join c = (l, Except.error Error.LobbyFull)) ∨
    (c ∉ l.players ∧ l.players.length < l.max_players ∧ l.state ≠ LobbyState.Registering ∧
      l.join c = (l, Except.error Error.LobbyNotOpen)) ∨
    (c ∉ l.players ∧ l.players.length < l.max_players ∧ l.state = LobbyState.Registering ∧
      l.join c = ({ l with
          players := l.players ++ [c],
          state := (if (l.players ++ [c]).length = l.max_players then LobbyState.InPlay
            else l.state) },
        Except.ok ())) := by
  by_cases h1 : c ∈ l.players
  · exact Or.inl ⟨h1, by rw [GameLobby.join, if_pos h1]⟩
  · by_cases h2 : l.players.length ≥ l.max_players
    · exact Or.inr (Or.inl ⟨h1, h2, by rw [GameLobby.join, if_neg h1, if_pos h2]⟩)
    · by_cases h3 : l.state = LobbyState.Registering
      · refine Or.inr (Or.inr (Or.inr ⟨h1, by omega, h3, ?_⟩))
        rw [GameLobby.join, if_neg h1, if_neg h2, if_neg (by simp [h3])]
      · refine Or.inr (Or.inr (Or.inl ⟨h1, by omega, h3, ?_⟩))
        rw [GameLobby.join, if_neg h1, if_neg h2, if_pos h3]

/-- Exhaustive case analysis of `leave`, as dictated by the order of
the checks in the source. -/
theorem leave_cases (l : GameLobby) (c : AccountId) :
    (l.state ≠ LobbyState.Registering ∧ l.leave c = (l, Except.error Error.LobbyNotOpen)) ∨
    (l.state = LobbyState.Registering ∧ position (· == c) l.players = none ∧
      l.leave c = (l, Except.error Error.PlayerNotFound)) ∨
    (∃ i, l.state = LobbyState.Registering ∧ position (· == c) l.players = some i ∧
      l.leave c = ({ l with players := swapRemove l.players i }, Except.ok ())) := by
  by_cases h1 : l.state = LobbyState.Registering
  · cases e : position (· == c) l.players with
    | none =>
      refine Or.inr (Or.inl ⟨h1, rfl, ?_⟩)
      rw [GameLobby.leave, if_neg (by simp [h1]), e]
    | some i =>
      refine Or.inr (Or.inr ⟨i, h1, rfl, ?_⟩)
      rw [GameLobby.leave, if_neg (by simp [h1]), e]
  · exact Or.inl ⟨h1, by rw [GameLobby.leave, if_pos h1]⟩

/-! The inductive invariant of reachable lobby states. -/

/-- Invariant maintained by `new`, `join` and `leave`: the roster fits
the capacity and is duplicate-free, an `InPlay` lobby is exactly full, a
`Registering` lobby of positive capacity is strictly below capacity, and
the `Finished` phase never occurs. -/
def Inv (l : GameLobby) : Prop :=
  l.players.length ≤ l.max_players ∧
  l.players.Nodup ∧
  (l.state = LobbyState.InPlay → l.players.length = l.max_players) ∧
  l.state ≠ LobbyState.Finished ∧
  (l.state = LobbyState.Registering → 0 < l.max_players →
    l.players.length < l.max_players)

/-- Reformulation of `Inv` on an explicit record, so that the record
projections are already reduced in each component. -/
theorem inv_mk {owner family_id max_players : Nat} {players : List AccountId}
    {state : LobbyState}
    (h1 : players.length ≤ max_players) (h2 : players.Nodup)
    (h3 : state = LobbyState.InPlay → players.length = max_players)
    (h4 : state ≠ LobbyState.Finished)
    (h5 : state = LobbyState.Registering → 0 < max_players →
      players.length < max_players) :
    Inv { owner := owner, family_id := family_id, max_players := max_players,
          players := players, state := state } :=
  ⟨h1, h2, h3, h4, h5⟩

/-- A freshly created lobby satisfies the invariant. -/
theorem inv_new (caller family_id max_players : Nat) :
    Inv (GameLobby.new caller family_id max_players) := by
  refine ⟨by simp [GameLobby.new], by simp [GameLobby.new], ?_, by simp [GameLobby.new], ?_⟩
  · intro h
    simp [GameLobby.new] at h
  · intro _ h
    simpa [GameLobby.new] using h

/-- `join` preserves the invariant. -/
theorem inv_join (l : GameLobby) (c : AccountId) (h : Inv l) : Inv (l.join c).1 := by
  rcases join_cases l c with ⟨_, e⟩ | ⟨_, _, e⟩ | ⟨_, _, _, e⟩ | ⟨h1, h2, h3, e⟩
  · rw [e]; exact h
  · rw [e]; exact h
  · rw [e]; exact h
  · obtain ⟨hcap, hnd, _, _, _⟩ := h
    have hnd' : (l.players ++ [c]).Nodup := by
      rw [List.nodup_append]
      refine ⟨hnd, List.nodup_singleton c, fun a ha hb => ?_⟩
      rw [List.mem_singleton] at hb
      exact h1 (hb ▸ ha)
    have e1 : (l.join c).1 = { l with
        players := l.players ++ [c],
        state := (if (l.players ++ [c]).length = l.max_players then LobbyState.InPlay
          else l.state) } := by rw [e]
    rw [e1]
    by_cases h4 : (l.players ++ [c]).length = l.max_players
    · rw [if_pos h4]
      exact inv_mk (Nat.le_of_eq h4) hnd' (fun _ => h4) (fun hf => nomatch hf)
        (fun hr => nomatch hr)
    · rw [if_neg h4, h3]
      refine inv_mk ?_ hnd' (fun hip => nomatch hip) (fun hf => nomatch hf)
        (fun _ _ => ?_)
      · simp only [List.length_append, List.length_singleton]
        omega
      · simp only [List.length_append, List.length_singleton] at h4 ⊢
        omega

/-- `leave` preserves the invariant. -/
theorem inv_leave (l : GameLobby) (c : AccountId) (h : Inv l) : Inv (l.leave c).1 := by
  rcases leave_cases l c with ⟨_, e⟩ | ⟨_, _, e⟩ | ⟨i, h1, hpos, e⟩
  · rw [e]; exact h
  · rw [e]; exact h
  · obtain ⟨hcap, hnd, _, _, _⟩ := h
    have hi : i < l.players.length := position_lt_length hpos
    have hlen : (swapRemove l.players i).length = l.players.length - 1 :=
      length_swapRemove hi
    have e1 : (l.leave c).1 = { l with players := swapRemove l.players i } := by rw [e]
    rw [e1, h1]
    refine inv_mk (by omega) (nodup_swapRemove hi hnd) (fun hip => nomatch hip)
      (fun hf => nomatch hf) (fun _ _ => by omega)

/-- Every reachable lobby state satisfies the invariant. -/
theorem reachable_inv {l : GameLobby} (h : Reachable l) : Inv l := by
  induction h with
  | created c f m => exact inv_new c f m
  | step _ hs ih =>
    cases hs with
    | join c => exact inv_join _ c ih
    | leave c => exact inv_leave _ c ih

/-! Claim theorems. -/

/-- C1: Capacity invariant: in every lobby state reachable from
`create(family_id, max_players)` by any sequence of `join` and `leave`
calls, the length of `players` is at most `max_players`. -/
theorem C1_capacity_invariant (l : GameLobby) (h : Reachable l) :
    l.players.length ≤ l.max_players :=
  (reachable_inv h).1

/-- Witness for C1 at a concrete reachable state (`new 0 1 2` after a
successful `join` by caller `5`). -/
theorem C1_capacity_invariant_witness :
    Reachable ((GameLobby.new 0 1 2).join 5).1 ∧
    ((GameLobby.new 0 1 2).join 5).1.players.length ≤
      ((GameLobby.new 0 1 2).join 5).1.max_players :=
  ⟨Reachable.step (Reachable.created 0 1 2) (Step.join _ 5),
   C1_capacity_invariant _ (Reachable.step (Reachable.created 0 1 2) (Step.join _ 5))⟩

/-- C2: No-duplicates invariant: in every reachable lobby state, every
caller identifier appears at most once in `players`. -/
theorem C2_no_duplicates (l : GameLobby) (h : Reachable l) (c : AccountId) :
    l.players.count c ≤ 1 :=
  List.nodup_iff_count_le_one.1 (reachable_inv h).2.1 c

/-- Witness for C2 at a concrete reachable state. -/
theorem C2_no_duplicates_witness :
    Reachable ((GameLobby.new 0 1 2).join 5).1 ∧
    ((GameLobby.new 0 1 2).join 5).1.players.count 5 ≤ 1 :=
  ⟨Reachable.step (Reachable.created 0 1 2) (Step.join _ 5),
   C2_no_duplicates _ (Reachable.step (Reachable.created 0 1 2) (Step.join _ 5)) 5⟩

/-- C3 counterexample: the claim also asserts that no observable state
has a full roster while the phase is still `Registering`; the reachable
state `new 0 1 0` (a lobby created with `max_players = 0`) has
`players.length = max_players` (both `0`) while `get_state` is still
`Registering`. -/
theorem C3_auto_transition_counterexample :
    Reachable (GameLobby.new 0 1 0) ∧
    (GameLobby.new 0 1 0).players.length = (GameLobby.new 0 1 0).max_players ∧
    (GameLobby.new 0 1 0).get_state = LobbyState.Registering :=
  ⟨Reachable.created 0 1 0, rfl, rfl⟩

/-- C3 (amended): a successful `join` that raises `players.length` to
exactly `max_players` leaves the phase `InPlay`, a successful `join`
that leaves `players.length` strictly below `max_players` leaves the
phase `Registering`, and no reachable state of positive capacity has a
full roster while the phase is still `Registering` (a zero-capacity
lobby is full at creation while still `Registering`). -/
theorem C3_auto_transition (l l' : GameLobby) (c : AccountId) :
    (l.join c = (l', Except.ok ()) →
      (l'.players.length = l.max_players → l'.get_state = LobbyState.InPlay) ∧
      (l'.players.length < l.max_players → l'.get_state = LobbyState.Registering)) ∧
    (Reachable l → 0 < l.max_players → l.get_state = LobbyState.Registering →
      l.players.length < l.max_players) := by
  constructor
  · intro hjoin
    rcases join_cases l c with ⟨_, e⟩ | ⟨_, _, e⟩ | ⟨_, _, _, e⟩ | ⟨_, _, h3, e⟩
    · rw [e] at hjoin; exact absurd (congrArg Prod.snd hjoin) (by simp)
    · rw [e] at hjoin; exact absurd (congrArg Prod.snd hjoin) (by simp)
    · rw [e] at hjoin; exact absurd (congrArg Prod.snd hjoin) (by simp)
    · rw [e] at hjoin
      have hl' := congrArg Prod.fst hjoin
      simp only at hl'
      subst hl'
      by_cases h4 : (l.players ++ [c]).length = l.max_players
      · constructor
        · intro _
          show (if (l.players ++ [c]).length = l.max_players then LobbyState.InPlay
            else l.state) = LobbyState.InPlay
          rw [if_pos h4]
        · intro hlt
          exact absurd (show (l.players ++ [c]).length = l.max_players from h4)
            (Nat.ne_of_lt hlt)
      · constructor
        · intro heq
          exact absurd (show (l.players ++ [c]).length = l.max_players from heq) h4
        · intro _
          show (if (l.players ++ [c]).length = l.max_players then LobbyState.InPlay
            else l.state) = LobbyState.Registering
          rw [if_neg h4, h3]
  · intro hr hpos hreg
    exact (reachable_inv hr).2.2.2.2 hreg hpos

/-- Witness for C3 (amended) at the concrete successful join that fills
a 1-capacity lobby. -/
theorem C3_auto_transition_witness :
    (((GameLobby.new 0 1 1).join 5).1.players.length = (GameLobby.new 0 1 1).max_players →
      ((GameLobby.new 0 1 1).join 5).1.get_state = LobbyState.InPlay) ∧
    ((GameLobby.new 0 1 2).players.length < (GameLobby.new 0 1 2).max_players) :=
  ⟨((C3_auto_transition (GameLobby.new 0 1 1) ((GameLobby.new 0 1 1).join 5).1 5).1 rfl).1,
   (C3_auto_transition (GameLobby.new 0 1 2) (GameLobby.new 0 1 2) 5).2
     (Reachable.created 0 1 2) (by decide) rfl⟩

/-- C4: Atomicity on error: whenever `join` or `leave` returns an
error, the entire lobby state is unchanged from before the call. -/
theorem C4_atomicity_on_error (l : GameLobby) (c : AccountId) (e : Error) :
    ((l.join c).2 = Except.error e → (l.join c).1 = l) ∧
    ((l.leave c).2 = Except.error e → (l.leave c).1 = l) := by
  constructor
  · intro he
    rcases join_cases l c with ⟨_, e1⟩ | ⟨_, _, e1⟩ | ⟨_, _, _, e1⟩ | ⟨_, _, _, e1⟩
    · rw [e1]
    · rw [e1]
    · rw [e1]
    · rw [e1] at he; simp at he
  · intro he
    rcases leave_cases l c with ⟨_, e1⟩ | ⟨_, _, e1⟩ | ⟨_, _, _, e1⟩
    · rw [e1]
    · rw [e1]
    · rw [e1] at he; simp at he

/-- Witness for C4: a `join` failing with `LobbyFull` and a `leave`
failing with `PlayerNotFound` both leave the zero-capacity lobby
unchanged. -/
theorem C4_atomicity_on_error_witness :
    ((GameLobby.new 0 1 0).join 7).1 = GameLobby.new 0 1 0 ∧
    ((GameLobby.new 0 1 0).leave 7).1 = GameLobby.new 0 1 0 :=
  ⟨(C4_atomicity_on_error (GameLobby.new 0 1 0) 7 Error.LobbyFull).1 rfl,
   (C4_atomicity_on_error (GameLobby.new 0 1 0) 7 Error.PlayerNotFound).2 rfl⟩

/-- C5: Duplicate-join precedence: a caller already present in
`players` always gets `PlayerAlreadyJoined` from `join`, for every
lobby state (hence regardless of capacity and phase), and the state is
unchanged. -/
theorem C5_duplicate_join_precedence (l : GameLobby) (c : AccountId)
    (h : c ∈ l.players) :
    l.join c = (l, Except.error Error.PlayerAlreadyJoined) := by
  rw [GameLobby.join, if_pos h]

/-- Witness for C5 on a lobby that is both full and `InPlay`. -/
theorem C5_duplicate_join_precedence_witness :
    5 ∈ ((GameLobby.new 0 1 1).join 5).1.players ∧
    ((GameLobby.new 0 1 1).join 5).1.join 5 =
      (((GameLobby.new 0 1 1).join 5).1, Except.error Error.PlayerAlreadyJoined) :=
  ⟨by decide, C5_duplicate_join_precedence _ 5 (by decide)⟩

/-- C6 counterexample: in the reachable state reached by filling a
1-capacity lobby (phase `InPlay`, hence not `Registering`), a `join` by
the absent caller `7` fails with `LobbyFull`, not `LobbyNotOpen`: the
capacity check precedes the phase check in the source. -/
theorem C6_join_not_open_counterexample :
    Reachable ((GameLobby.new 0 1 1).join 5).1 ∧
    ((GameLobby.new 0 1 1).join 5).1.get_state ≠ LobbyState.Registering ∧
    7 ∉ ((GameLobby.new 0 1 1).join 5).1.players ∧
    (((GameLobby.new 0 1 1).join 5).1.join 7).2 = Except.error Error.LobbyFull ∧
    (((GameLobby.new 0 1 1).join 5).1.join 7).2 ≠ Except.error Error.LobbyNotOpen :=
  ⟨Reachable.step (Reachable.created 0 1 1) (Step.join _ 5), by decide, by decide, rfl,
   by intro h; injection h with h2; exact absurd h2 (by decide)⟩

/-- C6 (amended): in every reachable lobby state whose phase is not
`Registering`, a `join` by a caller not already present fails with
`LobbyFull` (not `LobbyNotOpen`): every reachable non-`Registering`
state is `InPlay` with a full roster, so the capacity check fires
first.  The state is unchanged. -/
theorem C6_join_not_open (l : GameLobby) (c : AccountId) (hr : Reachable l)
    (hs : l.get_state ≠ LobbyState.Registering) (hc : c ∉ l.players) :
    l.join c = (l, Except.error Error.LobbyFull) := by
  obtain ⟨hcap, _, hfull, hfin, _⟩ := reachable_inv hr
  have hip : l.state = LobbyState.InPlay := by
    cases e : l.state with
    | Registering => exact absurd e hs
    | InPlay => rfl
    | Finished => exact absurd e hfin
  have hge : l.players.length ≥ l.max_players := Nat.le_of_eq (hfull hip).symm
  rw [GameLobby.join, if_neg hc, if_pos hge]

/-- Witness for C6 (amended) at the filled 1-capacity lobby. -/
theorem C6_join_not_open_witness :
    ((GameLobby.new 0 1 1).join 5).1.join 7 =
      (((GameLobby.new 0 1 1).join 5).1, Except.error Error.LobbyFull) :=
  C6_join_not_open _ 7 (Reachable.step (Reachable.created 0 1 1) (Step.join _ 5))
    (by decide) (by decide)

/-- C7: Leave restricted to `Registering`: when the phase is `InPlay`
or `Finished`, `leave` fails with `LobbyNotOpen` for every caller and
the roster and phase are unchanged. -/
theorem C7_leave_not_open (l : GameLobby) (c : AccountId)
    (h : l.get_state = LobbyState.InPlay ∨ l.get_state = LobbyState.Finished) :
    l.leave c = (l, Except.error Error.LobbyNotOpen) := by
  rw [GameLobby.get_state] at h
  have hne : l.state ≠ LobbyState.Registering := by
    rcases h with h | h <;> rw [h] <;> exact fun e => nomatch e
  rw [GameLobby.leave, if_pos hne]

/-- Witness for C7: a member tries to leave a filled (`InPlay`)
lobby. -/
theorem C7_leave_not_open_witness :
    ((GameLobby.new 0 1 1).join 5).1.leave 5 =
      (((GameLobby.new 0 1 1).join 5).1, Except.error Error.LobbyNotOpen) :=
  C7_leave_not_open _ 5 (Or.inl rfl)

/-- C8: Swap-removal postcondition: in phase `Registering` on a
duplicate-free roster containing `c` at index `i`, `leave` succeeds,
the new roster is the old one with index `i` overwritten by the old
last element and the last slot dropped, the phase is unchanged, the
length drops by one, `c` is gone, and every other member remains. -/
theorem C8_swap_removal (l : GameLobby) (c : AccountId) (i : Nat)
    (h : i < l.players.length) (hreg : l.get_state = LobbyState.Registering)
    (hnd : l.players.Nodup) (he : l.players[i] = c) :
    ∃ hne : l.players ≠ [],
      (l.leave c).2 = Except.ok () ∧
      (l.leave c).1.players = (l.players.set i (l.players.getLast hne)).dropLast ∧
      (l.leave c).1.state = l.state ∧
      (l.leave c).1.players.length = l.players.length - 1 ∧
      c ∉ (l.leave c).1.players ∧
      ∀ b ∈ l.players, b ≠ c → b ∈ (l.leave c).1.players := by
  rw [GameLobby.get_state] at hreg
  have hne : l.players ≠ [] := List.ne_nil_of_length_pos (by omega)
  have hne0 : ¬l.players.length = 0 := by omega
  have hpos : position (· == c) l.players = some i := position_eq_some_of_getElem hnd h he
  have e : l.leave c = ({ l with players := swapRemove l.players i }, Except.ok ()) := by
    rw [GameLobby.leave, if_neg (by simp [hreg]), hpos]
  rw [e]
  refine ⟨hne, rfl, ?_, rfl, length_swapRemove h, ?_, ?_⟩
  · show swapRemove l.players i = (l.players.set i (l.players.getLast hne)).dropLast
    rw [swapRemove, dif_neg hne0]
  · show c ∉ swapRemove l.players i
    rw [mem_swapRemove_iff h, ← he]
    exact not_mem_eraseIdx_self h hnd
  · intro b hb hbc
    show b ∈ swapRemove l.players i
    rw [mem_swapRemove_iff h]
    exact mem_eraseIdx_of_mem_of_ne h hb (fun hx => hbc (he ▸ hx))

/-- Witness for C8: caller `10` leaves the roster `[10, 20]`; the last
element `20` is swapped into slot `0`. -/
theorem C8_swap_removal_witness :
    ((((GameLobby.new 0 1 3).join 10).1.join 20).1.leave 10).2 = Except.ok () ∧
    10 ∉ ((((GameLobby.new 0 1 3).join 10).1.join 20).1.leave 10).1.players ∧
    ((((GameLobby.new 0 1 3).join 10).1.join 20).1.leave 10).1.players.length = 1 := by
  obtain ⟨hne, h1, h2, h3, h4, h5, h6⟩ :=
    C8_swap_removal (((GameLobby.new 0 1 3).join 10).1.join 20).1 10 0 (by decide) rfl
      (by decide) rfl
  exact ⟨h1, h5, by rw [h4]; rfl⟩

/-- C9: Zero-capacity edge case: `create` with `max_players = 0`
succeeds (empty roster, phase `Registering`), and the first `join`, by
any caller, fails with `LobbyFull` leaving the lobby unchanged. -/
theorem C9_zero_capacity (owner family_id c : Nat) :
    (GameLobby.new owner family_id 0).players = [] ∧
    (GameLobby.new owner family_id 0).get_state = LobbyState.Registering ∧
    (GameLobby.new owner family_id 0).join c =
      (GameLobby.new owner family_id 0, Except.error Error.LobbyFull) := by
  refine ⟨rfl, rfl, ?_⟩
  rw [GameLobby.join, if_neg (by simp [GameLobby.new]), if_pos (by simp [GameLobby.new])]

/-- C10: Phase monotonicity and unreachable `Finished`: no reachable
state has phase `Finished`, and no single `join`/`leave` call (the only
mutating calls; `get_players`/`get_state` are read-only) moves the
phase out of `InPlay` -- in particular never backward to
`Registering`. -/
theorem C10_phase_monotonicity (l l' : GameLobby) :
    (Reachable l → l.get_state ≠ LobbyState.Finished) ∧
    (Step l l' → l.get_state = LobbyState.InPlay → l'.get_state = LobbyState.InPlay) := by
  constructor
  · intro hr
    exact (reachable_inv hr).2.2.2.1
  · intro hs hip
    cases hs with
    | join c =>
      rcases join_cases l c with ⟨_, e⟩ | ⟨_, _, e⟩ | ⟨_, _, _, e⟩ | ⟨_, _, h3, e⟩
      · rw [e]; exact hip
      · rw [e]; exact hip
      · rw [e]; exact hip
      · exact nomatch hip.symm.trans h3
    | leave c =>
      rcases leave_cases l c with ⟨_, e⟩ | ⟨_, _, e⟩ | ⟨_, h1, _, e⟩
      · rw [e]; exact hip
      · rw [e]; exact hip
      · exact nomatch hip.symm.trans h1

/-- Witness for C10 at the filled 1-capacity lobby and a further
(failing) join step. -/
theorem C10_phase_monotonicity_witness :
    ((GameLobby.new 0 1 1).join 5).1.get_state ≠ LobbyState.Finished ∧
    (((GameLobby.new 0 1 1).join 5).1.join 7).1.get_state = LobbyState.InPlay :=
  ⟨(C10_phase_monotonicity ((GameLobby.new 0 1 1).join 5).1
      (((GameLobby.new 0 1 1).join 5).1.join 7).1).1
      (Reachable.step (Reachable.created 0 1 1) (Step.join _ 5)),
   (C10_phase_monotonicity ((GameLobby.new 0 1 1).join 5).1
      (((GameLobby.new 0 1 1).join 5).1.join 7).1).2 (Step.join _ 7) rfl⟩

end GameLobbySpec
